import Mathlib

/-!
# batstat: battery reader, icon selectors, stats and info commands, display

A shallow embedding of `main.go`.

Modelling conventions.

* A Go `string` is a Lean `String`.  The program only ever cuts strings at the
  one-byte ASCII separators `"\n"` and `"="`, compares them for equality and
  concatenates them, so working on characters instead of UTF-8 bytes does not
  change any of these operations on UTF-8 text.
* A Go `int` is a Lean `Int`; the platform is taken to be 64-bit
  (`intSize = 64`), which only matters inside `strconv.Atoi`.
* A Go `map[K]string` is an association list with unique keys; reading a
  missing key gives the zero value `""`.
* `os.ReadFile` is the only effect of `readBatteryInfo`; its outcome is an
  argument of the model (`none` when the read fails).
* Go does not specify the order of a `range` over a map; the order in which
  the `info` command meets the entries is an argument of the model.
* `model.Update` is a function of the state, the message, the path returned
  by `findBatteryPath` and the outcome of the file read.
-/

namespace Batstat

/-! ## Go maps -/

/-- The read `m[k]` of a Go map with string values: the stored value, or the
zero value `""` when the key is absent. -/
def mapGet {κ : Type} [DecidableEq κ] (m : List (κ × String)) (k : κ) : String :=
  match m with
  | [] => ""
  | (k', v') :: rest => if k' = k then v' else mapGet rest k

/-- The assignment `m[k] = v` of a Go map: the value of an existing key is
overwritten, a new key is added. -/
def mapSet {κ : Type} [DecidableEq κ] (m : List (κ × String)) (k : κ) (v : String) :
    List (κ × String) :=
  match m with
  | [] => [(k, v)]
  | (k', v') :: rest => if k' = k then (k', v) :: rest else (k', v') :: mapSet rest k v

/-- The keys present in a Go map. -/
def mapKeys {κ : Type} (m : List (κ × String)) : List κ :=
  m.map Prod.fst

/-! ## Library functions used by the reader (`strings`, `strconv`) -/

/-- Scanning loop of `strings.Split(s, sep)` for a one-byte separator: `cur` is
the piece read so far, the result is the list of pieces. -/
def splitFrom (sep : Char) (cur : List Char) : List Char → List (List Char)
  | [] => [cur]
  | c :: cs => if c = sep then cur :: splitFrom sep [] cs else splitFrom sep (cur ++ [c]) cs

/-- The call `strings.Split(s, sep)` for a one-byte separator: all the pieces
of `s` between occurrences of `sep` (a string without `sep` is its only
piece, the empty string included). -/
def Split (s : String) (sep : Char) : List String :=
  (splitFrom sep [] s.data).map String.mk

/-- The first occurrence of `sep` in `s` (`strings.Index`), returned as the
text before it and the text after it; `none` when `sep` does not occur. -/
def cutAt (sep : Char) : List Char → Option (List Char × List Char)
  | [] => none
  | c :: cs =>
      if c = sep then some ([], cs)
      else match cutAt sep cs with
        | none => none
        | some (before, after) => some (c :: before, after)

/-- Loop of `strings.SplitN(s, sep, n)` for `n ≥ 0` and a one-byte separator:
at most `n` pieces, the last one being the unsplit remainder. -/
def splitNChars (sep : Char) : Nat → List Char → List (List Char)
  | 0, _ => []
  | 1, s => [s]
  | n + 2, s =>
      match cutAt sep s with
      | none => [s]
      | some (before, after) => before :: splitNChars sep (n + 1) after

/-- The call `strings.SplitN(s, sep, n)` for `n ≥ 0` and a one-byte separator. -/
def SplitN (s : String) (sep : Char) (n : Nat) : List String :=
  (splitNChars sep n s.data).map String.mk

/-- Width of the Go type `int` on the platform. -/
def intSize : Nat := 64

/-- The two errors of `strconv`: `ErrSyntax` and `ErrRange`. -/
inductive NumError where
  | ErrSyntax
  | ErrRange
  deriving DecidableEq, Repr

/-- Digit loop of `strconv.ParseUint(s, 10, 0)`, on `uint64` arithmetic.  In
base 10 every byte that is not an ASCII digit is a syntax error (a letter is a
digit value of at least 10, an underscore is only accepted in base 0). As soon
as the value leaves the range the loop stops with `maxVal` and `ErrRange`,
without looking at the bytes that follow. -/
def parseUintLoop : List Char → Nat → Nat × Option NumError
  | [], n => (n, none)
  | c :: cs, n =>
      if '0' ≤ c ∧ c ≤ '9' then
        let d := c.toNat - '0'.toNat
        let cutoff := (2 ^ 64 - 1) / 10 + 1
        let maxVal := 2 ^ intSize - 1
        if n ≥ cutoff then (maxVal, some NumError.ErrRange)
        else
          let n10 := (n * 10) % 2 ^ 64
          let n1 := (n10 + d) % 2 ^ 64
          if n1 < n10 ∨ n1 > maxVal then (maxVal, some NumError.ErrRange)
          else parseUintLoop cs n1
      else (0, some NumError.ErrSyntax)

/-- The call `strconv.ParseUint(s, 10, 0)`. -/
def ParseUint (s : List Char) : Nat × Option NumError :=
  if s = [] then (0, some NumError.ErrSyntax) else parseUintLoop s 0

/-- The call `strconv.ParseInt(s, 10, 0)`: an optional sign, then
`ParseUint`; a syntax error gives 0, a value out of the range of `int` gives
the nearest bound of the range together with `ErrRange`. -/
def ParseInt (s : List Char) : Int × Option NumError :=
  if s = [] then (0, some NumError.ErrSyntax)
  else
    let neg := s.head? = some '-'
    let digits := if s.head? = some '+' ∨ s.head? = some '-' then s.tail else s
    let (un, err) := ParseUint digits
    if err = some NumError.ErrSyntax then (0, err)
    else
      let cutoff : Nat := 2 ^ (intSize - 1)
      if ¬ neg ∧ un ≥ cutoff then ((cutoff : Int) - 1, some NumError.ErrRange)
      else if neg ∧ un > cutoff then (-(cutoff : Int), some NumError.ErrRange)
      else (if neg then -(un : Int) else (un : Int), none)

/-- The call `strconv.Atoi(s)`, which is `ParseInt(s, 10, 0)` converted to
`int`: the value and the error. -/
def Atoi (s : String) : Int × Option NumError :=
  ParseInt s.data

/-! ## Battery reader (`readBatteryInfo`) -/

/-- The text of a line before its first `=` (the whole line when it has none). -/
def keyOf (line : String) : String :=
  String.mk (line.data.takeWhile (fun c => c != '='))

/-- The text of a line after its first `=` (empty when it has none). -/
def valueOf (line : String) : String :=
  String.mk (line.data.dropWhile (fun c => c != '=')).tail

/-- The loop `for _, line := range strings.Split(string(data), "\n")` of
`readBatteryInfo`, started with the map `info`. -/
def parseLines : List String → List (String × String) → List (String × String)
  | [], info => info
  | line :: rest, info =>
      match SplitN line '=' 2 with
      | [key, value] => parseLines rest (mapSet info key value)
      | _ => parseLines rest info

/-- The body of `readBatteryInfo` after a successful `os.ReadFile`: `data` is
the text of the `uevent` descriptor; the result is `(capacity, charging, info)`. -/
def readBatteryInfoText (data : String) : Int × Bool × List (String × String) :=
  let info := parseLines (Split data '\n') []
  let capacity := (Atoi (mapGet info "POWER_SUPPLY_CAPACITY")).1
  let charging :=
    mapGet info "POWER_SUPPLY_STATUS" == "Charging" || mapGet info "POWER_SUPPLY_STATUS" == "Full"
  (capacity, charging, info)

/-- The function `readBatteryInfo` of `main.go`, given the outcome of
`os.ReadFile`: `none` (the read failed) makes the process print the error and
exit with status 1, which is the result `none`; otherwise the text is parsed. -/
def readBatteryInfo (file : Option String) : Option (Int × Bool × List (String × String)) :=
  match file with
  | none => none
  | some data => some (readBatteryInfoText data)

/-! ## Icon selector, symbolic variant (`getBatteryIcon`) -/

/-- The table `iconsCharging` of `getBatteryIcon`. -/
def iconsCharging : List (Int × String) :=
  [(100, "🔋⚡"), (90, "🔋⚡"), (80, "🔋⚡"), (70, "🔋⚡"), (60, "🔋⚡"), (50, "🔋⚡"),
   (40, "🔋⚡"), (30, "🔋⚡"), (20, "🔋⚡"), (10, "🔋⚡"), (0, "🔋⚡")]

/-- The table `icons` of `getBatteryIcon`. -/
def icons : List (Int × String) :=
  [(100, "🔋"), (90, "🔋"), (80, "🔋"), (70, "🔋"), (60, "🔋"), (50, "🔋"),
   (40, "🔋"), (30, "🔋"), (20, "🪫"), (10, "🪫"), (0, "⚠️")]

/-- The slice `thresholds` of `getBatteryIcon`. -/
def thresholds : List Int :=
  [100, 90, 80, 70, 60, 50, 40, 30, 20, 10, 0]

/-- The loop `for _, t := range thresholds` of `getBatteryIcon` together with
the `return "❓"` that follows it. -/
def scanThresholds (selectedIcons : List (Int × String)) (level : Int) : List Int → String
  | [] => "❓"
  | t :: rest =>
      if level ≥ t then mapGet selectedIcons t else scanThresholds selectedIcons level rest

/-- The function `getBatteryIcon` of `main.go`. -/
def getBatteryIcon (level : Int) (charging : Bool) : String :=
  let selectedIcons := if charging then iconsCharging else icons
  scanThresholds selectedIcons level thresholds

/-! ## Icon selector, bar-gauge variant (`getBatteryIconTui`) -/

/-- The loop `for i := 0; i < n; i++ { icon += piece }`, unrolled `k` times. -/
def appendTimes (piece : String) : Nat → String → String
  | 0, icon => icon
  | k + 1, icon => appendTimes piece k (icon ++ piece)

/-- The loop `for i := 0; i < n; i++ { icon += piece }`: the body runs `n`
times when `n` is positive and not at all otherwise. -/
def appendLoop (n : Int) (piece : String) (icon : String) : String :=
  appendTimes piece n.toNat icon

/-- The function `getBatteryIconTui` of `main.go`.  Go's `/` on `int`
truncates toward zero, which is `Int.tdiv`. -/
def getBatteryIconTui (level : Int) (charging : Bool) : String :=
  let icon := if charging then "Charging: " else "Battery: "
  let fullBlocks := level.tdiv 10
  let emptyBlocks := 10 - fullBlocks
  let icon := icon ++ "["
  let icon := appendLoop fullBlocks "=" icon
  let icon := appendLoop emptyBlocks " " icon
  icon ++ "]"

/-! ## Output formatter of the `stats` command -/

/-- The verb `%d` of `fmt.Sprintf` on an `int`. -/
def fmtInt (n : Int) : String :=
  toString n

/-- The variable `icon` of `statsCmd.Run`: chosen once from the flags. -/
def statsIcon (showIcon showTuiIcon : Bool) (capacity : Int) (charging : Bool) : String :=
  if showIcon then getBatteryIcon capacity charging
  else if showTuiIcon then getBatteryIconTui capacity charging
  else ""

/-- The loop `for _, arg := range args` of `statsCmd.Run`: the strings it
writes to the builder, in order. -/
def argWrites (icon : String) (capacity : Int) : List String → List String
  | [] => []
  | arg :: rest =>
      (if arg = "-i" then [icon ++ " "] else []) ++
      (if arg = "-p" then [fmtInt capacity ++ "% "] else []) ++
      argWrites icon capacity rest

/-- The third conditional write of the non-`number` branch of `statsCmd.Run`:
the bare number, written under `(!showIcon || !showTuiIcon) && !showPercentage`. -/
def bareWrite (showIcon showTuiIcon showPercentage : Bool) (capacity : Int) : List String :=
  if (!showIcon || !showTuiIcon) && !showPercentage then [fmtInt capacity] else []

/-- The sequence of `output.WriteString` calls made by `statsCmd.Run` after the
battery has been read, in order. -/
def statsWrites (showIcon showTuiIcon showPercentage number : Bool)
    (capacity : Int) (charging : Bool) (args : List String) : List String :=
  let icon := statsIcon showIcon showTuiIcon capacity charging
  if number then
    (if showIcon || showTuiIcon then [icon ++ " "] else [])
  else
    argWrites icon capacity args ++
    (if showIcon || showTuiIcon then [icon ++ " "] else []) ++
    (if showPercentage then [fmtInt capacity ++ "%"] else []) ++
    bareWrite showIcon showTuiIcon showPercentage capacity

/-- The value of `output.String()` at the end of `statsCmd.Run`. -/
def statsOutput (showIcon showTuiIcon showPercentage number : Bool)
    (capacity : Int) (charging : Bool) (args : List String) : String :=
  String.join (statsWrites showIcon showTuiIcon showPercentage number capacity charging args)

/-- What `statsCmd.Run` prints: `fmt.Println(output.String())`. -/
def statsPrinted (showIcon showTuiIcon showPercentage number : Bool)
    (capacity : Int) (charging : Bool) (args : List String) : String :=
  statsOutput showIcon showTuiIcon showPercentage number capacity charging args ++ "\n"

/-! ## The `info` command -/

/-- One line of the attribute dump of `infoCmd.Run`: the text printed by
`fmt.Printf("%s: %s\n", key, value)`, without its final newline. -/
def infoEntryLine (entry : String × String) : String :=
  entry.1 ++ ": " ++ entry.2

/-- The lines printed by `infoCmd.Run` once the battery has been read:
the line of `fmt.Printf("Battery: %s %d%%\n", icon, capacity)`, then one line
for each entry met by `for key, value := range info`.  Go leaves the order of
a `range` over a map unspecified; `visit` is the list of entries in the order
in which the loop meets them. -/
def infoLines (capacity : Int) (charging : Bool) (visit : List (String × String)) :
    List String :=
  ("Battery: " ++ getBatteryIcon capacity charging ++ " " ++ fmtInt capacity ++ "%") ::
    visit.map infoEntryLine

/-- The lines printed by `infoCmd.Run` on the descriptor text `data`, the
entries of the map being met in the order `visit`. -/
def infoRun (data : String) (visit : List (String × String)) : List String :=
  infoLines (readBatteryInfoText data).1 (readBatteryInfoText data).2.1 visit

/-- The value given to key `k` by the last of the `lines` that contains `=`
and has `k` before its first `=`; `none` when there is no such line. -/
def lastValue (lines : List String) (k : String) : Option String :=
  ((lines.filter (fun line => decide ('=' ∈ line.data ∧ keyOf line = k))).getLast?).map valueOf

/-- The source lines that contain exactly one `=`, each rewritten with `: `
in place of its `=`. -/
def singleSeparatorLines (data : String) : List String :=
  ((Split data '\n').filter (fun line => line.data.count '=' = 1)).map
    (fun line => keyOf line ++ ": " ++ valueOf line)

/-! ## The interactive display (`model`) -/

/-- The struct `model` of `main.go`. -/
structure model where
  /-- The field `capacity`. -/
  capacity : Int
  /-- The field `charging`. -/
  charging : Bool
  /-- The field `icon`. -/
  icon : String
  deriving DecidableEq, Repr

/-- A message received by `model.Update`: the tick, which is the value
`struct{}{}` sent by the timer, or any message of another type. -/
inductive Msg where
  | tick
  | other
  deriving DecidableEq, Repr

/-- A command returned by `model.Init` and `model.Update`: `tea.Quit`, or a
`tea.Tick` of the given number of seconds that sends the tick message.  The
`nil` command is `none`. -/
inductive Cmd where
  | quit
  | tickAfter (seconds : Nat)
  deriving DecidableEq, Repr

/-- The method `model.Init`. -/
def model.Init (_m : model) : Option Cmd :=
  some (Cmd.tickAfter 1)

/-- The method `model.Update`.  `batteryPath` is what `findBatteryPath()`
returns at this call (`""` when no battery is found) and `file` is the outcome
of the `os.ReadFile` inside `readBatteryInfo`; the result is `none` when
`readBatteryInfo` exits the process. -/
def model.Update (m : model) (msg : Msg) (batteryPath : String) (file : Option String) :
    Option (model × Option Cmd) :=
  match msg with
  | Msg.tick =>
      if batteryPath = "" then some (m, some Cmd.quit)
      else
        match readBatteryInfo file with
        | none => none
        | some (capacity, charging, _) =>
            some (model.mk capacity charging (getBatteryIcon capacity charging),
              some (Cmd.tickAfter 1))
  | Msg.other => some (m, none)

/-- The method `model.View`. -/
def model.View (m : model) : String :=
  "Battery: " ++ m.icon ++ " " ++ fmtInt m.capacity ++ "%\n"

/-! ## Notions used to state the claims -/

/-- The characters of a rendered gauge between its `[` and its `]`. -/
def gaugeCells (gauge : String) : List Char :=
  ((gauge.data.dropWhile (fun c => c != '[')).tail).takeWhile (fun c => c != ']')

/-- What one positional argument adds to the output of `stats` when `number`
is unset: the icon and a space for `-i`, the percentage, `%` and a space for
`-p`, nothing for any other argument. -/
def argPiece (icon : String) (capacity : Int) (arg : String) : String :=
  if arg = "-i" then icon ++ " " else if arg = "-p" then fmtInt capacity ++ "% " else ""

/-! ## Go maps: facts -/

theorem mem_mapKeys_mapSet {κ : Type} [DecidableEq κ] (m : List (κ × String)) (key : κ)
    (v : String) (k : κ) : k ∈ mapKeys (mapSet m key v) ↔ k = key ∨ k ∈ mapKeys m := by
  induction m with
  | nil => simp [mapSet, mapKeys]
  | cons p rest ih =>
      obtain ⟨k', v'⟩ := p
      by_cases hk : k' = key
      · subst hk
        simp [mapSet, mapKeys]
      · have ih' : k ∈ List.map Prod.fst (mapSet rest key v) ↔
            k = key ∨ k ∈ List.map Prod.fst rest := ih
        simp only [mapSet, hk, if_false, mapKeys, List.map_cons, List.mem_cons, ih']
        tauto

theorem mapGet_of_not_mem {κ : Type} [DecidableEq κ] (m : List (κ × String)) (k : κ)
    (h : k ∉ mapKeys m) : mapGet m k = "" := by
  induction m with
  | nil => rfl
  | cons p rest ih =>
      obtain ⟨k', v'⟩ := p
      simp only [mapKeys, List.map_cons, List.mem_cons, not_or] at h
      have hne : ¬ k' = k := fun e => h.1 e.symm
      simp only [mapGet, hne, if_false]
      exact ih h.2

/-! ## `strings.Split` and `strings.SplitN`: facts -/

theorem splitFrom_no_sep (sep : Char) (a cur : List Char) (h : sep ∉ a) :
    splitFrom sep cur a = [cur ++ a] := by
  induction a generalizing cur with
  | nil => simp [splitFrom]
  | cons c a ih =>
      simp only [List.mem_cons, not_or] at h
      have hc : ¬ c = sep := fun e => h.1 e.symm
      simp [splitFrom, hc, ih _ h.2]

theorem splitFrom_append_sep (sep : Char) (a rest cur : List Char) (h : sep ∉ a) :
    splitFrom sep cur (a ++ sep :: rest) = (cur ++ a) :: splitFrom sep [] rest := by
  induction a generalizing cur with
  | nil => simp [splitFrom]
  | cons c a ih =>
      simp only [List.mem_cons, not_or] at h
      have hc : ¬ c = sep := fun e => h.1 e.symm
      simp [splitFrom, hc, ih _ h.2]

theorem cutAt_eq (sep : Char) (s : List Char) :
    cutAt sep s =
      if sep ∈ s then
        some (s.takeWhile (fun c => c != sep), (s.dropWhile (fun c => c != sep)).tail)
      else none := by
  induction s with
  | nil => simp [cutAt]
  | cons c cs ih =>
      by_cases hc : c = sep
      · subst hc
        simp [cutAt, List.takeWhile_cons, List.dropWhile_cons]
      · have hne : ¬ sep = c := fun e => hc e.symm
        by_cases hm : sep ∈ cs
        · simp [cutAt, hc, hne, ih, hm, List.takeWhile_cons, List.dropWhile_cons]
        · simp [cutAt, hc, hne, ih, hm]

theorem SplitN_two (line : String) :
    SplitN line '=' 2 = if '=' ∈ line.data then [keyOf line, valueOf line] else [line] := by
  simp only [SplitN, splitNChars, cutAt_eq]
  by_cases h : '=' ∈ line.data
  · simp [h, keyOf, valueOf]
  · simp [h]

theorem parseLines_cons (line : String) (rest : List String) (info : List (String × String)) :
    parseLines (line :: rest) info =
      parseLines rest
        (if '=' ∈ line.data then mapSet info (keyOf line) (valueOf line) else info) := by
  rw [parseLines, SplitN_two]
  by_cases h : '=' ∈ line.data
  · simp [h]
  · simp [h]

theorem mem_mapKeys_parseLines (lines : List String) (info : List (String × String))
    (k : String) :
    k ∈ mapKeys (parseLines lines info) ↔
      k ∈ mapKeys info ∨ ∃ line ∈ lines, '=' ∈ line.data ∧ k = keyOf line := by
  induction lines generalizing info with
  | nil => simp [parseLines]
  | cons line rest ih =>
      rw [parseLines_cons, ih]
      by_cases h : '=' ∈ line.data
      · simp only [h, if_true, mem_mapKeys_mapSet, List.mem_cons, exists_eq_or_imp, true_and]
        tauto
      · simp only [h, if_false, List.mem_cons, exists_eq_or_imp, false_and, false_or]


theorem ParseInt_syntax (s : List Char) (h : (ParseInt s).2 = some NumError.ErrSyntax) :
    (ParseInt s).1 = 0 := by
  unfold ParseInt at h ⊢
  by_cases hs : s = []
  · simp [hs]
  · simp only [hs, if_false] at h ⊢
    split_ifs at h ⊢ <;> simp_all

theorem ParseInt_range (s : List Char) (h : (ParseInt s).2 = some NumError.ErrRange) :
    (ParseInt s).1 = if s.head? = some '-' then -2 ^ 63 else 2 ^ 63 - 1 := by
  unfold ParseInt at h ⊢
  by_cases hs : s = []
  · simp [hs] at h
  · simp only [hs, if_false] at h ⊢
    split_ifs at h ⊢ <;> simp_all [intSize]

theorem Atoi_empty : Atoi "" = (0, some NumError.ErrSyntax) := by decide

theorem Atoi_decimal (n : Int) (h0 : 0 ≤ n) (h100 : n ≤ 100) : Atoi (fmtInt n) = (n, none) := by
  interval_cases n <;> decide

theorem fmtInt_no_newline (n : Int) (h0 : 0 ≤ n) (h100 : n ≤ 100) : '\n' ∉ (fmtInt n).data := by
  interval_cases n <;> decide

theorem Split_two_lines (a b : String) (ha : '\n' ∉ a.data) (hb : '\n' ∉ b.data) :
    Split (a ++ "\n" ++ b ++ "\n") '\n' = [a, b, ""] := by
  have e : (a ++ "\n" ++ b ++ "\n").data = a.data ++ '\n' :: (b.data ++ '\n' :: []) := by
    simp [String.data_append]
  rw [Split, e, splitFrom_append_sep _ _ _ _ ha, splitFrom_append_sep _ _ _ _ hb]
  simp [splitFrom]

theorem takeWhile_dropWhile_sep (sep : Char) (a b : List Char) (h : sep ∉ a) :
    (a ++ sep :: b).takeWhile (fun c => c != sep) = a ∧
      ((a ++ sep :: b).dropWhile (fun c => c != sep)).tail = b := by
  induction a with
  | nil => simp [List.takeWhile_cons, List.dropWhile_cons]
  | cons c a ih =>
      simp only [List.mem_cons, not_or] at h
      have hc : ¬ c = sep := fun e => h.1 e.symm
      simp [List.takeWhile_cons, List.dropWhile_cons, hc, ih h.2]

theorem keyOf_append (key v : String) (hk : '=' ∉ key.data) :
    '=' ∈ (key ++ "=" ++ v).data ∧ keyOf (key ++ "=" ++ v) = key ∧
      valueOf (key ++ "=" ++ v) = v := by
  have e : (key ++ "=" ++ v).data = key.data ++ '=' :: v.data := by
    simp [String.data_append]
  have h := takeWhile_dropWhile_sep '=' key.data v.data hk
  refine ⟨by simp [e], ?_, ?_⟩
  · rw [keyOf, e, h.1]
  · rw [valueOf, e, h.2]

theorem readBatteryInfoText_two_lines (v s : String)
    (hv : '\n' ∉ v.data) (hs : '\n' ∉ s.data) :
    readBatteryInfoText ("POWER_SUPPLY_CAPACITY=" ++ v ++ "\nPOWER_SUPPLY_STATUS=" ++ s ++ "\n") =
      ((Atoi v).1, s == "Charging" || s == "Full",
        [("POWER_SUPPLY_CAPACITY", v), ("POWER_SUPPLY_STATUS", s)]) := by
  have etext : "POWER_SUPPLY_CAPACITY=" ++ v ++ "\nPOWER_SUPPLY_STATUS=" ++ s ++ "\n" =
      ("POWER_SUPPLY_CAPACITY" ++ "=" ++ v) ++ "\n" ++ ("POWER_SUPPLY_STATUS" ++ "=" ++ s) ++ "\n" := by
    apply String.ext
    simp [String.data_append]
  have hc := keyOf_append "POWER_SUPPLY_CAPACITY" v (by decide)
  have hst := keyOf_append "POWER_SUPPLY_STATUS" s (by decide)
  have hl1 : '\n' ∉ ("POWER_SUPPLY_CAPACITY" ++ "=" ++ v).data := by
    simp [String.data_append, hv]
  have hl2 : '\n' ∉ ("POWER_SUPPLY_STATUS" ++ "=" ++ s).data := by
    simp [String.data_append, hs]
  have hempty : '=' ∉ ("" : String).data := by decide
  have hne : ¬ ("POWER_SUPPLY_CAPACITY" : String) = "POWER_SUPPLY_STATUS" := by decide
  have hne2 : ¬ ("POWER_SUPPLY_STATUS" : String) = "POWER_SUPPLY_CAPACITY" := by decide
  have hparse : parseLines
      ["POWER_SUPPLY_CAPACITY" ++ "=" ++ v, "POWER_SUPPLY_STATUS" ++ "=" ++ s, ""] [] =
      [("POWER_SUPPLY_CAPACITY", v), ("POWER_SUPPLY_STATUS", s)] := by
    rw [parseLines_cons, parseLines_cons, parseLines_cons, parseLines, if_pos hc.1, if_pos hst.1,
      if_neg hempty, hc.2.1, hc.2.2, hst.2.1, hst.2.2]
    simp only [mapSet, hne, if_false]
  have hget1 : mapGet [(("POWER_SUPPLY_CAPACITY" : String), v), ("POWER_SUPPLY_STATUS", s)]
      "POWER_SUPPLY_CAPACITY" = v := by
    simp only [mapGet, if_true]
  have hget2 : mapGet [(("POWER_SUPPLY_CAPACITY" : String), v), ("POWER_SUPPLY_STATUS", s)]
      "POWER_SUPPLY_STATUS" = s := by
    simp only [mapGet, hne, if_false, if_true]
  simp only [readBatteryInfoText]
  rw [etext, Split_two_lines _ _ hl1 hl2, hparse, hget1, hget2]

/-! ## Icon selector: facts -/

theorem getBatteryIcon_true (level : Int) :
    getBatteryIcon level true = scanThresholds iconsCharging level thresholds := rfl

theorem getBatteryIcon_false (level : Int) :
    getBatteryIcon level false = scanThresholds icons level thresholds := rfl

theorem scanThresholds_ge (m : List (Int × String)) (level t : Int) (rest : List Int)
    (h : t ≤ level) : scanThresholds m level (t :: rest) = mapGet m t := by
  simp [scanThresholds, h]

theorem scanThresholds_lt (m : List (Int × String)) (level t : Int) (rest : List Int)
    (h : level < t) : scanThresholds m level (t :: rest) = scanThresholds m level rest := by
  simp [scanThresholds, h]

theorem getBatteryIcon_high (level : Int) (h : 30 ≤ level) :
    getBatteryIcon level false = "🔋" := by
  rw [getBatteryIcon_false, thresholds]
  repeat
    rcases Int.lt_or_le level _ with hlt | hge
    swap
    · rw [scanThresholds_ge _ _ _ _ hge]; first | omega | rfl
    rw [scanThresholds_lt _ _ _ _ hlt]
  omega

theorem getBatteryIcon_low (level : Int) (h10 : 10 ≤ level) (h30 : level < 30) :
    getBatteryIcon level false = "🪫" := by
  rw [getBatteryIcon_false, thresholds]
  repeat
    rcases Int.lt_or_le level _ with hlt | hge
    swap
    · rw [scanThresholds_ge _ _ _ _ hge]; first | omega | rfl
    rw [scanThresholds_lt _ _ _ _ hlt]
  omega

theorem getBatteryIcon_critical (level : Int) (h0 : 0 ≤ level) (h10 : level < 10) :
    getBatteryIcon level false = "⚠️" := by
  rw [getBatteryIcon_false, thresholds]
  repeat
    rcases Int.lt_or_le level _ with hlt | hge
    swap
    · rw [scanThresholds_ge _ _ _ _ hge]; first | omega | rfl
    rw [scanThresholds_lt _ _ _ _ hlt]
  omega

theorem getBatteryIcon_charging_nonneg (level : Int) (h : 0 ≤ level) :
    getBatteryIcon level true = "🔋⚡" := by
  rw [getBatteryIcon_true, thresholds]
  repeat
    rcases Int.lt_or_le level _ with hlt | hge
    swap
    · rw [scanThresholds_ge _ _ _ _ hge]; rfl
    rw [scanThresholds_lt _ _ _ _ hlt]
  omega

theorem scanThresholds_all_lt (m : List (Int × String)) (level : Int) (ts : List Int)
    (h : ∀ t ∈ ts, level < t) : scanThresholds m level ts = "❓" := by
  induction ts with
  | nil => rfl
  | cons t rest ih =>
      rw [scanThresholds_lt _ _ _ _ (h t (List.mem_cons_self t rest))]
      exact ih (fun x hx => h x (List.mem_cons_of_mem t hx))

theorem thresholds_nonneg (t : Int) (h : t ∈ thresholds) : 0 ≤ t := by
  simp only [thresholds, List.mem_cons, List.mem_singleton, List.not_mem_nil, or_false] at h
  omega

/-! ## Bar gauge: facts -/

theorem appendTimes_eq (c : Char) (k : Nat) (icon : String) :
    appendTimes (String.singleton c) k icon = icon ++ String.mk (List.replicate k c) := by
  induction k generalizing icon with
  | zero => 
      apply String.ext
      simp [appendTimes]
  | succ k ih =>
      rw [appendTimes, ih]
      apply String.ext
      simp [String.data_append, List.replicate_succ, String.singleton]

theorem appendLoop_eq (n : Int) (c : Char) (icon : String) :
    appendLoop n (String.singleton c) icon = icon ++ String.mk (List.replicate n.toNat c) := by
  rw [appendLoop, appendTimes_eq]

theorem getBatteryIconTui_eq (level : Int) (charging : Bool) :
    getBatteryIconTui level charging =
      (if charging then "Charging: " else "Battery: ") ++ "[" ++
        String.mk (List.replicate (level.tdiv 10).toNat '=') ++
        String.mk (List.replicate (10 - level.tdiv 10).toNat ' ') ++ "]" := by
  have e1 : "=" = String.singleton '=' := rfl
  have e2 : " " = String.singleton ' ' := rfl
  simp only [getBatteryIconTui]
  rw [e1, e2, appendLoop_eq, appendLoop_eq]

/-! ## The reader: claims -/

/-- C1: for every integer `n` with `0 ≤ n ≤ 100`, written in decimal, and every
status string `s` without a newline, `readBatteryInfo` on the descriptor text
`POWER_SUPPLY_CAPACITY=<n>\nPOWER_SUPPLY_STATUS=<s>\n` returns capacity `n`,
and charging is true exactly when `s` is `Charging` or `Full`; the attribute
map holds the two entries. -/
theorem readBatteryInfo_capacity_and_status (n : Int) (s : String)
    (h0 : 0 ≤ n) (h100 : n ≤ 100) (hs : '\n' ∉ s.data) :
    readBatteryInfo
        (some ("POWER_SUPPLY_CAPACITY=" ++ fmtInt n ++ "\nPOWER_SUPPLY_STATUS=" ++ s ++ "\n")) =
      some (n, decide (s = "Charging" ∨ s = "Full"),
        [("POWER_SUPPLY_CAPACITY", fmtInt n), ("POWER_SUPPLY_STATUS", s)]) := by
  have hb : (s == "Charging" || s == "Full") = decide (s = "Charging" ∨ s = "Full") := by
    by_cases h1 : s = "Charging" <;> by_cases h2 : s = "Full" <;> simp [h1, h2]
  rw [readBatteryInfo, readBatteryInfoText_two_lines _ _ (fmtInt_no_newline n h0 h100) hs,
    Atoi_decimal n h0 h100, hb]

/-- C1 at `n = 67`, `s = "Discharging"`: the record is `(67, false)`. -/
theorem readBatteryInfo_capacity_and_status_witness :
    readBatteryInfo (some "POWER_SUPPLY_CAPACITY=67\nPOWER_SUPPLY_STATUS=Discharging\n") =
      some (67, false,
        [("POWER_SUPPLY_CAPACITY", "67"), ("POWER_SUPPLY_STATUS", "Discharging")]) :=
  readBatteryInfo_capacity_and_status 67 "Discharging" (by decide) (by decide) (by decide)

/-- C2 fails as stated: the capacity value `99999999999999999999` makes the
integer parse report an error (`ErrRange`), and the capacity returned is
`2^63 - 1`, not 0. -/
theorem readBatteryInfo_range_error_not_zero :
    (Atoi "99999999999999999999").2 = some NumError.ErrRange ∧
      readBatteryInfo (some "POWER_SUPPLY_CAPACITY=99999999999999999999\n") =
        some (9223372036854775807, false,
          [("POWER_SUPPLY_CAPACITY", "99999999999999999999")]) := by
  decide

/-- C2, amended: for every descriptor text `readBatteryInfo` returns a record
(no error is raised); its capacity is 0 when no parsed line has the key
`POWER_SUPPLY_CAPACITY` and when the integer parse of the capacity value
reports a syntax error; when the parse reports a range error the capacity is
the bound of the `int` range nearest to the value: `-2^63` when the value
starts with a minus sign, `2^63 - 1` otherwise. -/
theorem readBatteryInfo_capacity_default (data : String) :
    readBatteryInfo (some data) = some (readBatteryInfoText data) ∧
      ("POWER_SUPPLY_CAPACITY" ∉ mapKeys (readBatteryInfoText data).2.2 →
        (readBatteryInfoText data).1 = 0) ∧
      ((Atoi (mapGet (readBatteryInfoText data).2.2 "POWER_SUPPLY_CAPACITY")).2 =
          some NumError.ErrSyntax →
        (readBatteryInfoText data).1 = 0) ∧
      ((Atoi (mapGet (readBatteryInfoText data).2.2 "POWER_SUPPLY_CAPACITY")).2 =
          some NumError.ErrRange →
        (readBatteryInfoText data).1 =
          if (mapGet (readBatteryInfoText data).2.2 "POWER_SUPPLY_CAPACITY").data.head? = some '-'
          then -2 ^ 63 else 2 ^ 63 - 1) := by
  refine ⟨rfl, ?_, ?_, ?_⟩
  · intro h
    have hget := mapGet_of_not_mem _ _ h
    show (Atoi (mapGet (readBatteryInfoText data).2.2 "POWER_SUPPLY_CAPACITY")).1 = 0
    rw [hget, Atoi_empty]
  · intro h
    exact ParseInt_syntax _ h
  · intro h
    exact ParseInt_range _ h

/-- C2, amended, on four texts: one without the capacity key, one whose
capacity value is not a number, one whose capacity value is below the range
of `int` and one whose capacity value is above it; the range error starts
right after the two bounds of the range. -/
theorem readBatteryInfo_capacity_default_witness :
    (readBatteryInfoText "POWER_SUPPLY_STATUS=Full\n").1 = 0 ∧
      (readBatteryInfoText "POWER_SUPPLY_CAPACITY=6x\n").1 = 0 ∧
      (readBatteryInfoText "POWER_SUPPLY_CAPACITY=-99999999999999999999\n").1 = -2 ^ 63 ∧
      (readBatteryInfoText "POWER_SUPPLY_CAPACITY=99999999999999999999\n").1 = 2 ^ 63 - 1 ∧
      Atoi "9223372036854775807" = (2 ^ 63 - 1, none) ∧
      Atoi "9223372036854775808" = (2 ^ 63 - 1, some NumError.ErrRange) ∧
      Atoi "-9223372036854775808" = (-2 ^ 63, none) ∧
      Atoi "-9223372036854775809" = (-2 ^ 63, some NumError.ErrRange) :=
  ⟨(readBatteryInfo_capacity_default "POWER_SUPPLY_STATUS=Full\n").2.1 (by decide),
   (readBatteryInfo_capacity_default "POWER_SUPPLY_CAPACITY=6x\n").2.2.1 (by decide),
   ((readBatteryInfo_capacity_default
      "POWER_SUPPLY_CAPACITY=-99999999999999999999\n").2.2.2 (by decide)).trans (by decide),
   ((readBatteryInfo_capacity_default
      "POWER_SUPPLY_CAPACITY=99999999999999999999\n").2.2.2 (by decide)).trans (by decide),
   by decide, by decide, by decide, by decide⟩

/-- C3 fails as stated: the text `A=B=C` is one line with two `=`, and it is
not ignored: it adds the key `A`, with the value `B=C`. -/
theorem readBatteryInfo_two_separators_kept :
    Split "A=B=C" '\n' = ["A=B=C"] ∧ ("A=B=C" : String).data.count '=' = 2 ∧
      readBatteryInfo (some "A=B=C") = some (0, false, [("A", "B=C")]) := by
  decide

/-- C3, amended: for every descriptor text, a line adds an entry to the
attribute map exactly when it contains at least one `=`: a line without `=`
leaves the map as it is, a line with one or more `=` sets the key before its
first `=` to everything after that first `=`; so the keys of the map returned
by `readBatteryInfo` are the keys of the lines that contain `=`. -/
theorem readBatteryInfo_entry_iff_separator (data : String) :
    readBatteryInfo (some data) = some (readBatteryInfoText data) ∧
      (readBatteryInfoText data).2.2 = parseLines (Split data '\n') [] ∧
      (∀ (line : String) (rest : List String) (info : List (String × String)),
        parseLines (line :: rest) info =
          parseLines rest
            (if '=' ∈ line.data then mapSet info (keyOf line) (valueOf line) else info)) ∧
      (∀ k : String, k ∈ mapKeys (readBatteryInfoText data).2.2 ↔
        ∃ line ∈ Split data '\n', '=' ∈ line.data ∧ k = keyOf line) := by
  refine ⟨rfl, rfl, parseLines_cons, fun k => ?_⟩
  show k ∈ mapKeys (parseLines (Split data '\n') []) ↔ _
  rw [mem_mapKeys_parseLines]
  simp [mapKeys]

/-! ## The icon selectors: claims -/

/-- C4: when not charging, every level from 30 to 100 gets the full/high
glyph, every level from 10 to 20 the low glyph, and level 0 the
critical/warning glyph. -/
theorem getBatteryIcon_not_charging_classes (level : Int) :
    (30 ≤ level ∧ level ≤ 100 → getBatteryIcon level false = "🔋") ∧
    (10 ≤ level ∧ level ≤ 20 → getBatteryIcon level false = "🪫") ∧
    getBatteryIcon 0 false = "⚠️" :=
  ⟨fun h => getBatteryIcon_high level h.1,
   fun h => getBatteryIcon_low level h.1 (by omega),
   getBatteryIcon_critical 0 (by decide) (by decide)⟩

/-- C4 at the levels 67 and 15. -/
theorem getBatteryIcon_not_charging_classes_witness :
    getBatteryIcon 67 false = "🔋" ∧ getBatteryIcon 15 false = "🪫" :=
  ⟨(getBatteryIcon_not_charging_classes 67).1 (by decide),
   (getBatteryIcon_not_charging_classes 15).2.1 (by decide)⟩

/-- C5: when charging, every level from 0 to 100 gets the one charging glyph. -/
theorem getBatteryIcon_charging_single_glyph (level : Int) (h0 : 0 ≤ level)
    (_h100 : level ≤ 100) : getBatteryIcon level true = "🔋⚡" :=
  getBatteryIcon_charging_nonneg level h0

/-- C5 at level 42. -/
theorem getBatteryIcon_charging_single_glyph_witness : getBatteryIcon 42 true = "🔋⚡" :=
  getBatteryIcon_charging_single_glyph 42 (by decide) (by decide)

/-- C6: for every negative level, charging or not, no threshold matches and
`getBatteryIcon` returns the fallback glyph. -/
theorem getBatteryIcon_negative_fallback (level : Int) (charging : Bool) (h : level < 0) :
    getBatteryIcon level charging = "❓" := by
  have hall : ∀ t ∈ thresholds, level < t := fun t ht => by
    have := thresholds_nonneg t ht
    omega
  cases charging
  · rw [getBatteryIcon_false]; exact scanThresholds_all_lt _ _ _ hall
  · rw [getBatteryIcon_true]; exact scanThresholds_all_lt _ _ _ hall

/-- C6 at level -5, not charging and charging. -/
theorem getBatteryIcon_negative_fallback_witness :
    getBatteryIcon (-5) false = "❓" ∧ getBatteryIcon (-5) true = "❓" :=
  ⟨getBatteryIcon_negative_fallback (-5) false (by decide),
   getBatteryIcon_negative_fallback (-5) true (by decide)⟩

/-- C7: for every level from 0 to 100, `getBatteryIconTui` is the label
(`Charging: ` or `Battery: `), then `[`, then `floor(level/10)` fill
characters, then `10 - floor(level/10)` blanks, then `]`; the gauge has
exactly 10 cells. -/
theorem getBatteryIconTui_gauge (level : Int) (charging : Bool)
    (h0 : 0 ≤ level) (h100 : level ≤ 100) :
    getBatteryIconTui level charging =
        (if charging then "Charging: " else "Battery: ") ++ "[" ++
          String.mk (List.replicate (level / 10).toNat '=') ++
          String.mk (List.replicate (10 - level / 10).toNat ' ') ++ "]" ∧
      (List.replicate (level / 10).toNat '=' ++
        List.replicate (10 - level / 10).toNat ' ').length = 10 := by
  have hdiv : level.tdiv 10 = level / 10 := Int.tdiv_eq_ediv h0 (by decide)
  refine ⟨by rw [getBatteryIconTui_eq, hdiv], ?_⟩
  simp only [List.length_append, List.length_replicate]
  omega

/-- C7 at the levels 45, 0 and 100. -/
theorem getBatteryIconTui_gauge_witness :
    getBatteryIconTui 45 false = "Battery: [====      ]" ∧
    getBatteryIconTui 0 true = "Charging: [          ]" ∧
    getBatteryIconTui 100 false = "Battery: [==========]" :=
  ⟨(getBatteryIconTui_gauge 45 false (by decide) (by decide)).1.trans (by decide),
   (getBatteryIconTui_gauge 0 true (by decide) (by decide)).1.trans (by decide),
   (getBatteryIconTui_gauge 100 false (by decide) (by decide)).1.trans (by decide)⟩

/-! ## The stats formatter: claims -/

/-- C8: with `number` set, whatever the capacity, charging state, positional
arguments and `showPercentage`, the output is the selected icon (symbolic with
`showIcon`, otherwise bar gauge with `showTuiIcon`) followed by one space, and
empty when no icon flag is set; with `showIcon`, capacity 55 and not charging
it is `getBatteryIcon 55 false` followed by one space. -/
theorem stats_number_only (showIcon showTuiIcon showPercentage : Bool)
    (capacity : Int) (charging : Bool) (args : List String) :
    statsOutput showIcon showTuiIcon showPercentage true capacity charging args =
        (if showIcon then getBatteryIcon capacity charging ++ " "
         else if showTuiIcon then getBatteryIconTui capacity charging ++ " "
         else "") ∧
      statsOutput true showTuiIcon showPercentage true 55 false args =
        getBatteryIcon 55 false ++ " " := by
  constructor
  · cases showIcon <;> cases showTuiIcon <;>
      simp [statsOutput, statsWrites, statsIcon, String.join]
  · simp [statsOutput, statsWrites, statsIcon, String.join]

/-- C9: with `showPercentage` the only flag set and no positional argument,
the output is the decimal capacity followed by `%` and nothing else; capacity
55 gives `55%`. -/
theorem stats_percentage_only (capacity : Int) (charging : Bool) :
    statsOutput false false true false capacity charging [] = fmtInt capacity ++ "%" ∧
      statsOutput false false true false 55 charging [] = "55%" := by
  constructor
  · simp [statsOutput, statsWrites, argWrites, bareWrite, String.join]
  · simp [statsOutput, statsWrites, argWrites, bareWrite, String.join]
    decide

/-- C10, the code at `showIcon` set alone (capacity 55, not charging, no
positional argument): the writes are the icon with its space and then the bare
number `55`, so the output is `🔋 55`, although an icon flag is set. -/
theorem stats_icon_flag_appends_bare_number :
    statsWrites true false false false 55 false [] = ["🔋 ", "55"] ∧
      statsOutput true false false false 55 false [] = "🔋 55" ∧
      bareWrite true false false 55 = ["55"] ∧
      bareWrite true true false 55 = [] := by
  decide

/-! ## Threshold scan: the matching threshold -/

theorem getBatteryIcon_threshold (level : Int) (charging : Bool) (h0 : 0 ≤ level) :
    getBatteryIcon level charging =
      mapGet (if charging then iconsCharging else icons) (min 100 (10 * (level / 10))) := by
  have hscan : ∀ m : List (Int × String),
      scanThresholds m level thresholds = mapGet m (min 100 (10 * (level / 10))) := by
    intro m
    rw [thresholds]
    repeat
      rcases Int.lt_or_le level _ with hlt | hge
      swap
      · rw [scanThresholds_ge _ _ _ _ hge]
        congr 1
        rw [min_def]
        split <;> omega
      rw [scanThresholds_lt _ _ _ _ hlt]
    omega
  cases charging
  · rw [getBatteryIcon_false]; exact hscan icons
  · rw [getBatteryIcon_true]; exact hscan iconsCharging

theorem matching_threshold_spec (level : Int) (h0 : 0 ≤ level) :
    min 100 (10 * (level / 10)) ∈ thresholds ∧ min 100 (10 * (level / 10)) ≤ level ∧
      ∀ t ∈ thresholds, t ≤ level → t ≤ min 100 (10 * (level / 10)) := by
  have hmin : min 100 (10 * (level / 10)) = if 100 ≤ 10 * (level / 10) then 100
      else 10 * (level / 10) := by
    rw [min_def]
  refine ⟨?_, ?_, ?_⟩
  · rw [hmin]
    simp only [thresholds, List.mem_cons, List.mem_singleton, List.not_mem_nil, or_false]
    split <;> omega
  · rw [hmin]
    split <;> omega
  · intro t ht hle
    rw [hmin]
    simp only [thresholds, List.mem_cons, List.mem_singleton, List.not_mem_nil, or_false] at ht
    split <;> omega

theorem getBatteryIcon_ne_fallback (level : Int) (charging : Bool) (h0 : 0 ≤ level) :
    getBatteryIcon level charging ≠ "❓" := by
  cases charging
  · rcases Int.lt_or_le level 10 with h | h
    · rw [getBatteryIcon_critical level h0 h]; decide
    · rcases Int.lt_or_le level 30 with h' | h'
      · rw [getBatteryIcon_low level h h']; decide
      · rw [getBatteryIcon_high level h']; decide
  · rw [getBatteryIcon_charging_nonneg level h0]; decide

/-! ## Bar gauge: the quotient and the cells -/

theorem tdiv_ten (level : Int) :
    level.tdiv 10 = if 0 ≤ level then level / 10 else -((-level) / 10) := by
  split
  · next h => exact Int.tdiv_eq_ediv h (by decide)
  · next h =>
      have hneg : (0 : Int) ≤ -level := by omega
      have e : level = -(-level) := by omega
      conv_lhs => rw [e]
      rw [Int.neg_tdiv, Int.tdiv_eq_ediv hneg (by decide)]

theorem gaugeCells_getBatteryIconTui (level : Int) (charging : Bool) :
    gaugeCells (getBatteryIconTui level charging) =
      List.replicate (level.tdiv 10).toNat '=' ++
        List.replicate (10 - level.tdiv 10).toNat ' ' := by
  have hlabel : '[' ∉ (if charging then "Charging: " else "Battery: " : String).data := by
    cases charging <;> decide
  have hcells : ']' ∉ List.replicate (level.tdiv 10).toNat '=' ++
      List.replicate (10 - level.tdiv 10).toNat ' ' := by
    intro hmem
    rcases List.mem_append.1 hmem with h | h
    · exact absurd (List.eq_of_mem_replicate h) (by decide)
    · exact absurd (List.eq_of_mem_replicate h) (by decide)
  have e : (getBatteryIconTui level charging).data =
      (if charging then "Charging: " else "Battery: " : String).data ++ '[' ::
        ((List.replicate (level.tdiv 10).toNat '=' ++
          List.replicate (10 - level.tdiv 10).toNat ' ') ++ ']' :: []) := by
    rw [getBatteryIconTui_eq]
    simp [String.data_append]
  rw [gaugeCells, e, (takeWhile_dropWhile_sep '[' _ _ hlabel).2,
    (takeWhile_dropWhile_sep ']' _ _ hcells).1]

/-! ## The stats formatter: positional arguments -/

theorem String_join_append (a b : List String) :
    String.join (a ++ b) = String.join a ++ String.join b := by
  apply String.ext
  simp [String.data_join, String.data_append]

theorem join_argWrites (icon : String) (capacity : Int) (args : List String) :
    String.join (argWrites icon capacity args) =
      String.join (args.map (argPiece icon capacity)) := by
  induction args with
  | nil => rfl
  | cons arg rest ih =>
      have hcons : String.join (argPiece icon capacity arg :: rest.map (argPiece icon capacity)) =
          argPiece icon capacity arg ++ String.join (rest.map (argPiece icon capacity)) := by
        apply String.ext
        simp [String.data_join, String.data_append]
      rw [argWrites, String_join_append, ih, List.map_cons, hcons]
      congr 1
      by_cases hi : arg = "-i"
      · have hp : ¬ arg = "-p" := by rw [hi]; decide
        apply String.ext
        simp [argPiece, hi, String.data_join]
      · by_cases hp : arg = "-p"
        · apply String.ext
          simp [argPiece, hp, String.data_join]
        · apply String.ext
          simp [argPiece, hi, hp, String.data_join]

theorem statsOutput_args (showIcon showTuiIcon showPercentage : Bool)
    (capacity : Int) (charging : Bool) (args : List String) :
    statsOutput showIcon showTuiIcon showPercentage false capacity charging args =
      String.join (args.map (argPiece (statsIcon showIcon showTuiIcon capacity charging) capacity))
        ++ statsOutput showIcon showTuiIcon showPercentage false capacity charging [] := by
  simp only [statsOutput, statsWrites, Bool.false_eq_true, if_false, argWrites,
    List.nil_append, List.append_assoc]
  rw [String_join_append, join_argWrites]

/-! ## The reader: the last line of a key -/

theorem mapGet_mapSet {κ : Type} [DecidableEq κ] (m : List (κ × String)) (key : κ)
    (v : String) (k : κ) : mapGet (mapSet m key v) k = if key = k then v else mapGet m k := by
  induction m with
  | nil => simp [mapSet, mapGet]
  | cons p rest ih =>
      obtain ⟨k', v'⟩ := p
      by_cases hk : k' = key
      · subst hk
        by_cases hk2 : k' = k <;> simp [mapSet, mapGet, hk2]
      · by_cases hk2 : k' = k
        · subst hk2
          have hne : ¬ key = k' := fun e => hk e.symm
          simp [mapSet, mapGet, hk, hne]
        · simp [mapSet, mapGet, hk, hk2, ih]

theorem lastValue_nil (k : String) : lastValue [] k = none := rfl

theorem lastValue_cons (line : String) (rest : List String) (k : String) :
    lastValue (line :: rest) k =
      match lastValue rest k with
      | some v => some v
      | none => if '=' ∈ line.data ∧ keyOf line = k then some (valueOf line) else none := by
  unfold lastValue
  by_cases hl : '=' ∈ line.data ∧ keyOf line = k
  · rw [List.filter_cons_of_pos (by simpa using hl), List.getLast?_cons]
    cases hr : (rest.filter (fun line => decide ('=' ∈ line.data ∧ keyOf line = k))).getLast? with
    | none => simp [hl]
    | some w => simp
  · rw [List.filter_cons_of_neg (by simpa using hl)]
    cases hr : (rest.filter (fun line => decide ('=' ∈ line.data ∧ keyOf line = k))).getLast? with
    | none => simp [hl]
    | some w => simp

theorem lastValue_eq_none_iff (lines : List String) (k : String) :
    lastValue lines k = none ↔ ¬ ∃ line ∈ lines, '=' ∈ line.data ∧ keyOf line = k := by
  unfold lastValue
  rw [Option.map_eq_none', List.getLast?_eq_none_iff, List.filter_eq_nil_iff]
  simp

theorem lastValue_append (earlier later : List String) (k : String)
    (h : ∃ line ∈ later, '=' ∈ line.data ∧ keyOf line = k) :
    lastValue (earlier ++ later) k = lastValue later k := by
  induction earlier with
  | nil => rfl
  | cons line rest ih =>
      rw [List.cons_append, lastValue_cons, ih]
      cases hl : lastValue later k with
      | none => exact absurd h ((lastValue_eq_none_iff later k).1 hl)
      | some v => rfl

theorem mapGet_parseLines (lines : List String) (info : List (String × String)) (k : String) :
    mapGet (parseLines lines info) k = (lastValue lines k).getD (mapGet info k) := by
  induction lines generalizing info with
  | nil => simp [parseLines, lastValue_nil]
  | cons line rest ih =>
      rw [parseLines_cons, ih, lastValue_cons]
      cases hl : lastValue rest k with
      | some v => simp
      | none =>
          by_cases h1 : '=' ∈ line.data
          · by_cases h2 : keyOf line = k
            · simp [h1, h2, mapGet_mapSet]
            · simp [h1, h2, mapGet_mapSet]
          · simp [h1]

theorem nodup_mapKeys_mapSet {κ : Type} [DecidableEq κ] (m : List (κ × String)) (key : κ)
    (v : String) (h : (mapKeys m).Nodup) : (mapKeys (mapSet m key v)).Nodup := by
  induction m with
  | nil => simp [mapSet, mapKeys]
  | cons p rest ih =>
      obtain ⟨k', v'⟩ := p
      have h' : k' ∉ mapKeys rest ∧ (mapKeys rest).Nodup := by
        simpa [mapKeys] using h
      by_cases hk : k' = key
      · simp only [mapSet, hk, if_true]
        simpa [mapKeys, hk] using h
      · simp only [mapSet, hk, if_false]
        have hnot : k' ∉ mapKeys (mapSet rest key v) := by
          rw [mem_mapKeys_mapSet]
          exact fun hor => hor.elim hk h'.1
        have ih' := ih h'.2
        show (k' :: mapKeys (mapSet rest key v)).Nodup
        exact List.nodup_cons.2 ⟨hnot, ih'⟩

theorem nodup_mapKeys_parseLines (lines : List String) (info : List (String × String))
    (h : (mapKeys info).Nodup) : (mapKeys (parseLines lines info)).Nodup := by
  induction lines generalizing info with
  | nil => simpa [parseLines] using h
  | cons line rest ih =>
      rw [parseLines_cons]
      apply ih
      split
      · exact nodup_mapKeys_mapSet _ _ _ h
      · exact h

theorem mem_iff_mapGet {κ : Type} [DecidableEq κ] (m : List (κ × String))
    (h : (mapKeys m).Nodup) (k : κ) (v : String) :
    (k, v) ∈ m ↔ k ∈ mapKeys m ∧ mapGet m k = v := by
  induction m with
  | nil => simp [mapKeys]
  | cons p rest ih =>
      obtain ⟨k', v'⟩ := p
      have h' : k' ∉ mapKeys rest ∧ (mapKeys rest).Nodup := by
        simpa [mapKeys] using h
      have ih' := ih h'.2
      by_cases hk : k' = k
      · subst hk
        have hno : (k', v) ∉ rest := fun hm => h'.1 ((ih'.1 hm).1)
        simp only [List.mem_cons, Prod.mk.injEq, true_and, hno, or_false, mapGet, if_true,
          mapKeys, List.map_cons, true_or]
        exact eq_comm
      · have hne : ¬ k = k' := fun e => hk e.symm
        have hkeys : k ∈ mapKeys ((k', v') :: rest) ↔ k ∈ mapKeys rest := by
          simp [mapKeys, hne]
        rw [hkeys]
        simp only [List.mem_cons, Prod.mk.injEq, hne, false_and, false_or, mapGet, hk, if_false]
        exact ih'

theorem mem_parseLines_iff (lines : List String) (k v : String) :
    (k, v) ∈ parseLines lines [] ↔ lastValue lines k = some v := by
  rw [mem_iff_mapGet _ (nodup_mapKeys_parseLines lines [] (by simp [mapKeys])),
    mem_mapKeys_parseLines, mapGet_parseLines]
  have hnone := lastValue_eq_none_iff lines k
  cases hl : lastValue lines k with
  | none =>
      rw [hl] at hnone
      have hno : ¬ ∃ line ∈ lines, '=' ∈ line.data ∧ keyOf line = k := hnone.1 rfl
      have hno' : ¬ ∃ line ∈ lines, '=' ∈ line.data ∧ k = keyOf line := by
        intro ⟨line, hm, h1, h2⟩
        exact hno ⟨line, hm, h1, h2.symm⟩
      simp [mapKeys, hno']
  | some w =>
      rw [hl] at hnone
      have hex : ∃ line ∈ lines, '=' ∈ line.data ∧ keyOf line = k := by
        by_contra hcon
        exact absurd (hnone.2 hcon) (by simp)
      have hex' : ∃ line ∈ lines, '=' ∈ line.data ∧ k = keyOf line := by
        obtain ⟨line, hm, h1, h2⟩ := hex
        exact ⟨line, hm, h1, h2.symm⟩
      simp [mapKeys, hex']

theorem ParseInt_bounds (s : List Char) :
    -2 ^ 63 ≤ (ParseInt s).1 ∧ (ParseInt s).1 ≤ 2 ^ 63 - 1 := by
  unfold ParseInt
  by_cases hs : s = []
  · simp [hs]
  · simp only [hs, if_false]
    split_ifs <;> simp_all [intSize] <;> omega

/-! ## Claims on the info command, the reader, the selectors, the formatter and the display -/

/-- C11 fails as stated: on the text `A=1\nA=2\nB=x=y\n` the source lines
with exactly one `=` give `A: 1` and `A: 2`, but the `info` command prints,
after its first line, `A: 2` and `B: x=y`, in either order of the map. -/
theorem infoRun_not_single_separator_lines :
    (readBatteryInfoText "A=1\nA=2\nB=x=y\n").2.2 = [("A", "2"), ("B", "x=y")] ∧
      singleSeparatorLines "A=1\nA=2\nB=x=y\n" = ["A: 1", "A: 2"] ∧
      infoRun "A=1\nA=2\nB=x=y\n" [("A", "2"), ("B", "x=y")] =
        ["Battery: ⚠️ 0%", "A: 2", "B: x=y"] ∧
      infoRun "A=1\nA=2\nB=x=y\n" [("B", "x=y"), ("A", "2")] =
        ["Battery: ⚠️ 0%", "B: x=y", "A: 2"] ∧
      ¬ List.Perm ["A: 2", "B: x=y"] (singleSeparatorLines "A=1\nA=2\nB=x=y\n") := by
  refine ⟨by decide, by decide, by decide, by decide, ?_⟩
  intro hperm
  have hmem : "B: x=y" ∈ singleSeparatorLines "A=1\nA=2\nB=x=y\n" :=
    hperm.subset (by decide)
  exact absurd hmem (by decide)

/-- C11, amended: for every descriptor text, the output of the `info` command
is the line `Battery: <icon> <capacity>%` followed, in the order in which the
map is visited, by exactly one line `key: value` for each entry of the
attribute map; the map has one entry for each distinct key among the source
lines that contain at least one `=`, and its value is the text after the
first `=` of the last source line with that key. -/
theorem infoRun_lines (data : String) (visit : List (String × String))
    (hvisit : visit.Perm (readBatteryInfoText data).2.2) :
    infoRun data visit =
        ("Battery: " ++
            getBatteryIcon (readBatteryInfoText data).1 (readBatteryInfoText data).2.1 ++ " " ++
            fmtInt (readBatteryInfoText data).1 ++ "%") ::
          visit.map infoEntryLine ∧
      (visit.map infoEntryLine).Perm ((readBatteryInfoText data).2.2.map infoEntryLine) ∧
      (mapKeys (readBatteryInfoText data).2.2).Nodup ∧
      (∀ k v : String, (k, v) ∈ (readBatteryInfoText data).2.2 ↔
        lastValue (Split data '\n') k = some v) ∧
      (∀ k : String, k ∈ mapKeys (readBatteryInfoText data).2.2 ↔
        ∃ line ∈ Split data '\n', '=' ∈ line.data ∧ keyOf line = k) := by
  refine ⟨rfl, hvisit.map _, ?_, ?_, ?_⟩
  · exact nodup_mapKeys_parseLines _ _ (by simp [mapKeys])
  · intro k v
    exact mem_parseLines_iff _ k v
  · intro k
    show k ∈ mapKeys (parseLines (Split data '\n') []) ↔ _
    rw [mem_mapKeys_parseLines]
    simp only [mapKeys, List.map_nil, List.not_mem_nil, false_or]
    constructor
    · rintro ⟨line, hm, h1, h2⟩
      exact ⟨line, hm, h1, h2.symm⟩
    · rintro ⟨line, hm, h1, h2⟩
      exact ⟨line, hm, h1, h2.symm⟩

/-- C11, amended, on the text `A=1\nA=2\nB=x=y\n` visited in the order `B`, `A`. -/
theorem infoRun_lines_witness :
    infoRun "A=1\nA=2\nB=x=y\n" [("B", "x=y"), ("A", "2")] =
      ["Battery: ⚠️ 0%", "B: x=y", "A: 2"] :=
  (infoRun_lines "A=1\nA=2\nB=x=y\n" [("B", "x=y"), ("A", "2")]
    (List.Perm.swap ("A", "2") ("B", "x=y") [])).1.trans (by decide)

/-- C12 fails as stated: the capacity values 150 and -5 are returned as they
are, outside 0..100. -/
theorem readBatteryInfo_capacity_out_of_percent_range :
    readBatteryInfo (some "POWER_SUPPLY_CAPACITY=150\n") =
        some (150, false, [("POWER_SUPPLY_CAPACITY", "150")]) ∧
      readBatteryInfo (some "POWER_SUPPLY_CAPACITY=-5\n") =
        some (-5, false, [("POWER_SUPPLY_CAPACITY", "-5")]) := by
  decide

/-- C12, amended: for every descriptor text, the capacity returned by
`readBatteryInfo` is an integer of the range of `int`, from `-2^63` to
`2^63 - 1`; it is `n` when the capacity attribute is the decimal of an
integer `n` in 0..100, and 0 when the attribute is absent; the reader does not
confine it to 0..100. -/
theorem readBatteryInfo_capacity_int_range (data : String) (n : Int) :
    (-2 ^ 63 ≤ (readBatteryInfoText data).1 ∧ (readBatteryInfoText data).1 ≤ 2 ^ 63 - 1) ∧
      (0 ≤ n ∧ n ≤ 100 →
        mapGet (readBatteryInfoText data).2.2 "POWER_SUPPLY_CAPACITY" = fmtInt n →
        (readBatteryInfoText data).1 = n) ∧
      ("POWER_SUPPLY_CAPACITY" ∉ mapKeys (readBatteryInfoText data).2.2 →
        (readBatteryInfoText data).1 = 0) := by
  refine ⟨ParseInt_bounds _, ?_, ?_⟩
  · intro hn hv
    show (Atoi (mapGet (readBatteryInfoText data).2.2 "POWER_SUPPLY_CAPACITY")).1 = n
    rw [hv, Atoi_decimal n hn.1 hn.2]
  · intro h
    show (Atoi (mapGet (readBatteryInfoText data).2.2 "POWER_SUPPLY_CAPACITY")).1 = 0
    rw [mapGet_of_not_mem _ _ h, Atoi_empty]

/-- C12, amended, on a text with capacity 67 and on a text without the
capacity key. -/
theorem readBatteryInfo_capacity_int_range_witness :
    (readBatteryInfoText "POWER_SUPPLY_CAPACITY=67\nPOWER_SUPPLY_STATUS=Full\n").1 = 67 ∧
      (readBatteryInfoText "POWER_SUPPLY_STATUS=Full\n").1 = 0 :=
  ⟨(readBatteryInfo_capacity_int_range
      "POWER_SUPPLY_CAPACITY=67\nPOWER_SUPPLY_STATUS=Full\n" 67).2.1 (by decide) (by decide),
   (readBatteryInfo_capacity_int_range "POWER_SUPPLY_STATUS=Full\n" 0).2.2 (by decide)⟩

/-- C13: for every level `≥ 0` and every charging flag, `getBatteryIcon`
returns the glyph that the selected table gives to `min(100, 10*floor(level/10))`,
which is the largest threshold not above the level, and never the fallback
glyph; so, when not charging, every level `≥ 30` (above 100 included) gives
the high glyph, every level in 10..29 the low glyph and every level in 0..9
the warning glyph. -/
theorem getBatteryIcon_largest_threshold (level : Int) (charging : Bool) (h0 : 0 ≤ level) :
    getBatteryIcon level charging =
        mapGet (if charging then iconsCharging else icons) (min 100 (10 * (level / 10))) ∧
      (min 100 (10 * (level / 10)) ∈ thresholds ∧ min 100 (10 * (level / 10)) ≤ level ∧
        ∀ t ∈ thresholds, t ≤ level → t ≤ min 100 (10 * (level / 10))) ∧
      getBatteryIcon level charging ≠ "❓" ∧
      (30 ≤ level → getBatteryIcon level false = "🔋") ∧
      (10 ≤ level ∧ level ≤ 29 → getBatteryIcon level false = "🪫") ∧
      (level ≤ 9 → getBatteryIcon level false = "⚠️") :=
  ⟨getBatteryIcon_threshold level charging h0, matching_threshold_spec level h0,
   getBatteryIcon_ne_fallback level charging h0,
   fun h => getBatteryIcon_high level h,
   fun h => getBatteryIcon_low level h.1 (by omega),
   fun h => getBatteryIcon_critical level h0 (by omega)⟩

/-- C13 at the levels 250, 29 and 9. -/
theorem getBatteryIcon_largest_threshold_witness :
    getBatteryIcon 250 false = "🔋" ∧ getBatteryIcon 29 false = "🪫" ∧
      getBatteryIcon 9 false = "⚠️" ∧ getBatteryIcon 250 true = mapGet iconsCharging 100 :=
  ⟨(getBatteryIcon_largest_threshold 250 false (by decide)).2.2.2.1 (by decide),
   (getBatteryIcon_largest_threshold 29 false (by decide)).2.2.2.2.1 (by decide),
   (getBatteryIcon_largest_threshold 9 false (by decide)).2.2.2.2.2 (by decide),
   (getBatteryIcon_largest_threshold 250 true (by decide)).1⟩

/-- C14 fails as stated: at level -5 the floor of the quotient is -1, which
would give 11 blanks, but `getBatteryIconTui` renders 10 blanks, because the
quotient of Go's `/` is truncated toward zero and is 0 here. -/
theorem getBatteryIconTui_truncates_not_floor :
    Int.fdiv (-5) 10 = -1 ∧ (max 0 (10 - Int.fdiv (-5) 10)).toNat = 11 ∧
      getBatteryIconTui (-5) false = "Battery: [          ]" ∧
      gaugeCells (getBatteryIconTui (-5) false) = List.replicate 10 ' ' := by
  decide

/-- C14, amended: for every integer level, below 0 and above 100 included,
`getBatteryIconTui` renders `max(0, fullBlocks)` fill characters followed by
`max(0, 10 - fullBlocks)` blanks, where `fullBlocks` is the quotient of level
by 10 truncated toward zero: the floor of `level/10` for a level `≥ 0`, and
minus the floor of `(-level)/10` for a negative level; nothing is clamped to
the range 0..10. -/
theorem getBatteryIconTui_unclamped (level : Int) (charging : Bool) :
    getBatteryIconTui level charging =
        (if charging then "Charging: " else "Battery: ") ++ "[" ++
          String.mk (List.replicate (max 0 (level.tdiv 10)).toNat '=') ++
          String.mk (List.replicate (max 0 (10 - level.tdiv 10)).toNat ' ') ++ "]" ∧
      (0 ≤ level → level.tdiv 10 = Int.fdiv level 10) ∧
      (level < 0 → level.tdiv 10 = -Int.fdiv (-level) 10) := by
  refine ⟨?_, ?_, ?_⟩
  · have e1 : (max 0 (level.tdiv 10)).toNat = (level.tdiv 10).toNat := by omega
    have e2 : (max 0 (10 - level.tdiv 10)).toNat = (10 - level.tdiv 10).toNat := by omega
    rw [e1, e2, getBatteryIconTui_eq]
  · intro h
    rw [Int.fdiv_eq_ediv _ (by decide), Int.tdiv_eq_ediv h (by decide)]
  · intro h
    rw [Int.fdiv_eq_ediv _ (by decide), tdiv_ten, if_neg (by omega)]

/-- C14, amended, at the levels 45 and -45. -/
theorem getBatteryIconTui_unclamped_witness :
    (45 : Int).tdiv 10 = Int.fdiv 45 10 ∧ (-45 : Int).tdiv 10 = -Int.fdiv (- -45) 10 :=
  ⟨(getBatteryIconTui_unclamped 45 false).2.1 (by decide),
   (getBatteryIconTui_unclamped (-45) false).2.2 (by decide)⟩

/-- C15: with `number` unset, for every list of positional arguments the
output is the concatenation, in argument order, of the icon and a space for
each `-i` and of the capacity, `%` and a space for each `-p` (nothing for any
other argument), followed by the output for no positional argument, which
does not depend on them; `k` arguments `-i` give `k` copies of the icon and
its space. -/
theorem stats_positional_prefix (showIcon showTuiIcon showPercentage : Bool)
    (capacity : Int) (charging : Bool) (args : List String) (k : Nat) :
    statsOutput showIcon showTuiIcon showPercentage false capacity charging args =
        String.join
            (args.map (argPiece (statsIcon showIcon showTuiIcon capacity charging) capacity)) ++
          statsOutput showIcon showTuiIcon showPercentage false capacity charging [] ∧
      statsOutput showIcon showTuiIcon showPercentage false capacity charging
          (List.replicate k "-i") =
        String.join (List.replicate k (statsIcon showIcon showTuiIcon capacity charging ++ " ")) ++
          statsOutput showIcon showTuiIcon showPercentage false capacity charging [] := by
  refine ⟨statsOutput_args _ _ _ _ _ _, ?_⟩
  rw [statsOutput_args, List.map_replicate]
  rfl

/-- C16: `model.Update` as a step.  A tick with no battery found returns the
state unchanged with the quit command; a tick with a battery whose record is
`(c, ch)` returns the state `(c, ch, getBatteryIcon c ch)` with one 1-second
tick; a message that is not the tick returns the state unchanged with no
command.  So every state returned by a tick that found a battery has
`icon = getBatteryIcon capacity charging`. -/
theorem model_Update_step (m : model) (batteryPath : String) (file : Option String)
    (c : Int) (ch : Bool) (info : List (String × String)) :
    model.Update m Msg.tick "" file = some (m, some Cmd.quit) ∧
      (batteryPath ≠ "" → readBatteryInfo file = some (c, ch, info) →
        model.Update m Msg.tick batteryPath file =
          some (model.mk c ch (getBatteryIcon c ch), some (Cmd.tickAfter 1))) ∧
      model.Update m Msg.other batteryPath file = some (m, none) ∧
      (∀ (m' : model) (cmd : Option Cmd), batteryPath ≠ "" →
        model.Update m Msg.tick batteryPath file = some (m', cmd) →
        m'.icon = getBatteryIcon m'.capacity m'.charging) := by
  refine ⟨rfl, ?_, rfl, ?_⟩
  · intro hp hr
    simp [model.Update, hp, hr]
  · intro m' cmd hp hu
    simp only [model.Update, hp, if_false] at hu
    cases hfile : readBatteryInfo file with
    | none => rw [hfile] at hu; simp at hu
    | some r =>
        obtain ⟨c', ch', info'⟩ := r
        rw [hfile] at hu
        simp only [Option.some.injEq, Prod.mk.injEq] at hu
        rw [← hu.1]

/-- C16 on a tick with the record `(67, false)`. -/
theorem model_Update_step_witness :
    model.Update (model.mk 0 false "") Msg.tick "/sys/class/power_supply/BAT0"
        (some "POWER_SUPPLY_CAPACITY=67\nPOWER_SUPPLY_STATUS=Discharging\n") =
      some (model.mk 67 false (getBatteryIcon 67 false), some (Cmd.tickAfter 1)) :=
  (model_Update_step (model.mk 0 false "") "/sys/class/power_supply/BAT0"
    (some "POWER_SUPPLY_CAPACITY=67\nPOWER_SUPPLY_STATUS=Discharging\n") 67 false
    [("POWER_SUPPLY_CAPACITY", "67"), ("POWER_SUPPLY_STATUS", "Discharging")]).2.1
    (by decide) (by decide)

/-- C17: for every integer level, the gauge of `getBatteryIconTui` has
exactly 10 characters between `[` and `]` if and only if `-9 ≤ level ≤ 109`;
for a level `≥ 110` it is `level/10` fill characters and no blank, and for a
level `≤ -10` it is no fill character and more than 10 blanks. -/
theorem getBatteryIconTui_width (level : Int) (charging : Bool) :
    ((gaugeCells (getBatteryIconTui level charging)).length = 10 ↔
        -9 ≤ level ∧ level ≤ 109) ∧
      (110 ≤ level →
        gaugeCells (getBatteryIconTui level charging) =
          List.replicate (level / 10).toNat '=') ∧
      (level ≤ -10 →
        ∃ k : Nat, 10 < k ∧
          gaugeCells (getBatteryIconTui level charging) = List.replicate k ' ') := by
  have hq := tdiv_ten level
  rw [gaugeCells_getBatteryIconTui]
  refine ⟨?_, ?_, ?_⟩
  · simp only [List.length_append, List.length_replicate]
    split at hq <;> omega
  · intro h
    rw [if_pos (by omega)] at hq
    have e : (10 - level.tdiv 10).toNat = 0 := by omega
    rw [e, hq]
    simp
  · intro h
    rw [if_neg (by omega)] at hq
    have e : (level.tdiv 10).toNat = 0 := by omega
    refine ⟨(10 - level.tdiv 10).toNat, by omega, ?_⟩
    rw [e]
    simp

/-- C17 at the levels 123 and -25. -/
theorem getBatteryIconTui_width_witness :
    gaugeCells (getBatteryIconTui 123 false) = List.replicate ((123 : Int) / 10).toNat '=' ∧
      ∃ k : Nat, 10 < k ∧ gaugeCells (getBatteryIconTui (-25) true) = List.replicate k ' ' :=
  ⟨(getBatteryIconTui_width 123 false).2.1 (by decide),
   (getBatteryIconTui_width (-25) true).2.2 (by decide)⟩

/-- C18: for every descriptor text and key, the attribute map holds the
value of the last line that has this key before its first `=` (and `""` when
there is none); so capacity and charging are computed from the last
`POWER_SUPPLY_CAPACITY` line and the last `POWER_SUPPLY_STATUS` line, and the
lines before a line with the key have no effect on the value of the key. -/
theorem readBatteryInfo_last_line_wins (data : String) (k : String)
    (earlier later : List String) :
    mapGet (readBatteryInfoText data).2.2 k = (lastValue (Split data '\n') k).getD "" ∧
      (readBatteryInfoText data).1 =
        (Atoi ((lastValue (Split data '\n') "POWER_SUPPLY_CAPACITY").getD "")).1 ∧
      (readBatteryInfoText data).2.1 =
        ((lastValue (Split data '\n') "POWER_SUPPLY_STATUS").getD "" == "Charging" ||
          (lastValue (Split data '\n') "POWER_SUPPLY_STATUS").getD "" == "Full") ∧
      ((∃ line ∈ later, '=' ∈ line.data ∧ keyOf line = k) →
        mapGet (parseLines (earlier ++ later) []) k = mapGet (parseLines later []) k) := by
  have hget : ∀ key : String, mapGet (parseLines (Split data '\n') []) key =
      (lastValue (Split data '\n') key).getD "" := fun key => by
    rw [mapGet_parseLines]; rfl
  refine ⟨hget k, ?_, ?_, ?_⟩
  · show (Atoi (mapGet (parseLines (Split data '\n') []) "POWER_SUPPLY_CAPACITY")).1 = _
    rw [hget]
  · show (mapGet (parseLines (Split data '\n') []) "POWER_SUPPLY_STATUS" == "Charging" ||
      mapGet (parseLines (Split data '\n') []) "POWER_SUPPLY_STATUS" == "Full") = _
    rw [hget]
  · intro h
    rw [mapGet_parseLines, mapGet_parseLines, lastValue_append earlier later k h]

/-- C18 on texts that give `POWER_SUPPLY_CAPACITY` twice. -/
theorem readBatteryInfo_last_line_wins_witness :
    mapGet (parseLines (["POWER_SUPPLY_CAPACITY=10", "X=1"] ++ ["POWER_SUPPLY_CAPACITY=80"]) [])
        "POWER_SUPPLY_CAPACITY" =
      mapGet (parseLines ["POWER_SUPPLY_CAPACITY=80"] []) "POWER_SUPPLY_CAPACITY" ∧
    readBatteryInfoText
        "POWER_SUPPLY_CAPACITY=10\nPOWER_SUPPLY_STATUS=Full\nPOWER_SUPPLY_CAPACITY=80\nPOWER_SUPPLY_STATUS=Discharging\n" =
      (80, false, [("POWER_SUPPLY_CAPACITY", "80"), ("POWER_SUPPLY_STATUS", "Discharging")]) :=
  ⟨(readBatteryInfo_last_line_wins "" "POWER_SUPPLY_CAPACITY"
      ["POWER_SUPPLY_CAPACITY=10", "X=1"] ["POWER_SUPPLY_CAPACITY=80"]).2.2.2
      ⟨"POWER_SUPPLY_CAPACITY=80", by decide, by decide, by decide⟩,
   by decide⟩

/-- C19: the icon of the stats formatter is chosen once from the flags: with
`showIcon` it is `getBatteryIcon`, whatever `showTuiIcon` is; with
`showTuiIcon` alone it is `getBatteryIconTui`; with neither it is the empty
string, so that a positional `-i` without an icon flag adds a single space. -/
theorem stats_icon_selection (showTuiIcon showPercentage : Bool) (capacity : Int)
    (charging : Bool) :
    statsIcon true showTuiIcon capacity charging = getBatteryIcon capacity charging ∧
      statsIcon false true capacity charging = getBatteryIconTui capacity charging ∧
      statsIcon false false capacity charging = "" ∧
      argWrites (statsIcon false false capacity charging) capacity ["-i"] = [" "] ∧
      statsOutput false false showPercentage false capacity charging ["-i"] =
        " " ++ statsOutput false false showPercentage false capacity charging [] := by
  refine ⟨rfl, rfl, rfl, ?_, ?_⟩
  · simp [argWrites, statsIcon]
  · rw [statsOutput_args]
    congr 1

end Batstat
